import Mathlib

/-!
Shallow embedding of `auditmiddleware/_api.py` (openstack-audit-middleware):
the resource-grammar compiler (`_put_hier`, `_parse_resources`) and the
path-walking event builder (`create_event`, `_build_event`, `_create_event`,
`_get_action`, `_get_custom_action`, `_build_target_service_resource`,
`_strip_url_prefix`).

Modelling conventions:
- Python `None`-able strings are `Option String`; Python truthiness of a
  string value (`if res_id:`) is `pyTruthyO` (both `None` and `""` are falsy).
- Python dicts are association lists with first-match lookup (`dictGet`) and
  replace-or-append update (`dictSet`); raw-config dicts have unique keys.
- Raised Python exceptions are modelled by `Except PyErr`; functions that the
  source allows to raise return `Except PyErr _`.
- The logger (`self._log`) is an append-only sink threaded through the
  resolver as an explicit `List String` state, so "no hidden state" claims
  are about something real.
- A parsed JSON request body is abstracted to its key list (`Option (List
  String)`, `none` = `request.json` raises `ValueError`, `some []` = falsy
  payload); a response body to a string-valued field map (`JsonBody`).
- `str.format(project_id=...)` on the prefix template is modelled as
  substitution of the placeholder `"{project_id}"`, the only placeholder the
  middleware supplies.
- pycadf taxonomy string constants are inlined: ACTION_CREATE = "create",
  ACTION_READ = "read", ACTION_LIST = "list", ACTION_UPDATE = "update",
  ACTION_DELETE = "delete", OUTCOME_SUCCESS = "success", OUTCOME_FAILURE =
  "failure", UNKNOWN = "unknown", ACCOUNT_USER = "service/security/account/user",
  EVENTTYPE_ACTIVITY = "activity".
-/

namespace AuditMW

/-- Log sink state: the sequence of messages written so far. -/
abbrev Lg := List String

/-- Python truthiness of a string. -/
def pyTruthyS (s : String) : Bool := !(s == "")

/-- Python truthiness of an optional string (`None` and `""` are falsy). -/
def pyTruthyO : Option String → Bool
  | none => false
  | some s => pyTruthyS s

/-- Python `a or b` for two optional strings. -/
def pyOrO (a b : Option String) : Option String :=
  if pyTruthyO a then a else b

/-- Python `a or b` where `b` is a plain string (e.g. a `.get` with default). -/
def pyOrS (a : Option String) (b : String) : String :=
  match a with
  | none => b
  | some s => if pyTruthyS s then s else b

/-- Clamp a Python index to a list offset: negative indices count from the
end and are clamped at 0, exactly as in CPython slicing/`str.find`. -/
def pyStart (len : Nat) (i : Int) : Nat :=
  if i < 0 then ((len : Int) + i).toNat else i.toNat

/-- First index of `c` in the list, as an offset. -/
def goFind : List Char → Char → Option Nat
  | [], _ => none
  | x :: xs, c => if x = c then some 0 else (goFind xs c).map (· + 1)

/-- Python `s.find(c, start)`: index of the first occurrence of `c` at or
after `start`, or `-1`. -/
def strFind (s : String) (c : Char) (start : Int) : Int :=
  match goFind (s.data.drop (pyStart s.data.length start)) c with
  | none => -1
  | some k => (pyStart s.data.length start : Int) + (k : Int)

/-- Python slice `s[a:b]`. -/
def pySlice (s : String) (a b : Int) : String :=
  ⟨(s.data.take (pyStart s.data.length b)).drop (pyStart s.data.length a)⟩

/-- Python slice `s[a:]`. -/
def pySliceFrom (s : String) (a : Int) : String :=
  ⟨s.data.drop (pyStart s.data.length a)⟩

/-- Python `str.replace` over char lists: replace non-overlapping
occurrences of `pat` left to right. (The middleware only calls this with the
non-empty patterns `"*"` and `"{project_id}"`.) The structural fuel is the
length of the scanned list: every step consumes one fuel and at least one
character, so the fuel-exhausted case is only reached on the empty list,
where returning it is the correct result. -/
def pyReplace : Nat → List Char → List Char → List Char → List Char
  | 0, l, _, _ => l
  | _ + 1, [], _, _ => []
  | fuel + 1, x :: xs, pat, rep =>
    if pat ≠ [] ∧ pat.isPrefixOf (x :: xs) then
      rep ++ pyReplace fuel ((x :: xs).drop pat.length) pat rep
    else x :: pyReplace fuel xs pat rep

/-- Python `s.replace(pat, rep)`. -/
def strReplace (s pat rep : String) : String :=
  ⟨pyReplace s.data.length s.data pat.data rep.data⟩

/-- Python `s.startswith(p)`. -/
def strStartsWith (s p : String) : Bool := p.data.isPrefixOf s.data

/-- Python `s.endswith(p)`. -/
def strEndsWith (s p : String) : Bool := p.data.isSuffixOf s.data

/-- Python `dict.get` on an association list. -/
def dictGet {α : Type} : List (String × α) → String → Option α
  | [], _ => none
  | (k, v) :: rest, key => if k = key then some v else dictGet rest key

/-- Python `dct[key] = v` on an association list (replace or append). -/
def dictSet {α : Type} : List (String × α) → String → α → List (String × α)
  | [], key, v => [(key, v)]
  | (k, w) :: rest, key, v =>
      if k = key then (k, v) :: rest else (k, w) :: dictSet rest key v

/-- Python exceptions that the embedded code can raise per request. -/
inductive PyErr where
  | attributeError
  | valueError
  | typeError
deriving DecidableEq, Repr

/-- A node of the compiled grammar: either a plain name-table dict (as built
by `_put_hier` for intermediate segments of hierarchical names, and as the
root `resource_specs` dict), or a compiled `ResourceSpec` namedtuple with
fields `type_uri`, `el_type_uri`, `singleton`, `custom_actions`, `children`. -/
inductive Node where
  | tbl : List (String × Node) → Node
  | spec : String → Option String → Bool → List (String × String) →
      List (String × Node) → Node

/-- A compiled grammar dict: resource name to node. -/
abbrev Grammar := List (String × Node)

/-- Attribute access `x.type_uri`: raises `AttributeError` on a plain dict. -/
def typeUriA : Node → Except PyErr String
  | .tbl _ => .error .attributeError
  | .spec t _ _ _ _ => .ok t

/-- Attribute access `x.el_type_uri`. -/
def elTypeUriA : Node → Except PyErr (Option String)
  | .tbl _ => .error .attributeError
  | .spec _ el _ _ _ => .ok el

/-- Attribute access `x.singleton`. -/
def singletonA : Node → Except PyErr Bool
  | .tbl _ => .error .attributeError
  | .spec _ _ sg _ _ => .ok sg

/-- Attribute access `x.custom_actions`. -/
def customActionsA : Node → Except PyErr (List (String × String))
  | .tbl _ => .error .attributeError
  | .spec _ _ _ ca _ => .ok ca

/-- Python truthiness of a grammar node: an empty dict is falsy, a namedtuple
(nonempty tuple) is always truthy. -/
def nodeTruthy : Node → Bool
  | .tbl es => !es.isEmpty
  | .spec _ _ _ _ _ => true

/-- Python truthiness of `dict.get(...)` over grammar nodes. -/
def nodeTruthyO : Option Node → Bool
  | none => false
  | some n => nodeTruthy n

/-!
Raw (pre-compilation) resource configuration from the YAML file. `RawDict`
is a dict of resource name to entry; an entry is either YAML null
(`if not s: spec = {}` in the source) or a description with optional
`singleton`, optional `type_uri`, optional `custom_actions` table, and a
`children` dict. (A mutual inductive rather than nested `List`/`Option`, so
that the compiler can be defined by structural recursion.)
-/

mutual

/-- A raw dict value: YAML null or a resource description. -/
inductive RawEntry where
  | null
  | res : RawRes → RawEntry

/-- A raw resource description. -/
inductive RawRes where
  | mk : Option Bool → Option String → Option (List (String × String)) →
      RawDict → RawRes

/-- A raw resources dict: resource name to entry. -/
inductive RawDict where
  | nil
  | cons : String → RawEntry → RawDict → RawDict

end

/-- The `singleton` override of a raw entry (`spec.get('singleton', False)`,
after `if not s: spec = {}`). -/
def rawSingleton : RawEntry → Bool
  | .res (.mk (some b) _ _ _) => b
  | _ => false

/-- The explicit `type_uri` override of a raw entry, if any. -/
def rawTypeUriOpt : RawEntry → Option String
  | .res (.mk _ tu _ _) => tu
  | .null => none

/-- The `custom_actions` table of a raw entry (`spec.get('custom_actions', {})`). -/
def rawCustomActions : RawEntry → List (String × String)
  | .res (.mk _ _ (some ca) _) => ca
  | _ => []

/-- The `children` dict of a raw entry (`spec.get('children', {})`). -/
def rawKids : RawEntry → RawDict
  | .res (.mk _ _ _ ch) => ch
  | .null => .nil

/-- The prefix used for defaulted type URIs: `parentTypeURI` if truthy, else
the service type (`if parentTypeURI: pfx = parentTypeURI else: pfx =
self._service_type`). -/
def pfxOf (parent : Option String) (svc : String) : String :=
  match parent with
  | some p => if pyTruthyS p then p else svc
  | none => svc

/-- The resolved `type_uri` of a raw entry:
`spec.get('type_uri', pfx + "/" + name)`. -/
def rawTypeUri (svc : String) (parent : Option String) (name : String)
    (s : RawEntry) : String :=
  match rawTypeUriOpt s with
  | some t => t
  | none => pfxOf parent svc ++ "/" ++ name

/-- The resolved `el_type_uri` of a raw entry:
`type_uri + '/' + name[:-1] if not singleton else None`. -/
def rawEl (svc : String) (parent : Option String) (name : String)
    (s : RawEntry) : Option String :=
  if rawSingleton s then none
  else some (rawTypeUri svc parent name s ++ "/" ++ name.dropRight 1)

/-- Length facts for `goFind`. -/
theorem goFind_lt {l : List Char} {c : Char} {k : Nat} (h : goFind l c = some k) :
    k < l.length := by
  induction l generalizing k with
  | nil => simp [goFind] at h
  | cons x xs ih =>
    simp only [goFind] at h
    split at h
    · cases h; simp
    · cases hx : goFind xs c with
      | none => simp [hx] at h
      | some j =>
        simp [hx] at h
        subst h
        simpa using Nat.succ_lt_succ (ih hx)

/-- `strFind` either misses or returns an index in `[max(start,0), length)`. -/
theorem strFind_spec (s : String) (c : Char) (start : Int) :
    strFind s c start = -1 ∨
      (0 ≤ strFind s c start ∧
        pyStart s.data.length start ≤ (strFind s c start).toNat ∧
        (strFind s c start).toNat < s.data.length) := by
  cases h : goFind (s.data.drop (pyStart s.data.length start)) c with
  | none =>
    left
    unfold strFind
    rw [h]
  | some k =>
    right
    have hk := goFind_lt h
    rw [List.length_drop] at hk
    unfold strFind
    rw [h]
    dsimp only
    omega

/-- Measure for `_build_event`'s cursor recursion: `-1` is the terminal
cursor; other cursors advance strictly towards the end of the path. -/
def bmeasure (path : String) (cursor : Int) : Nat :=
  if cursor = -1 then 0
  else if cursor < 0 then path.data.length + 2
  else path.data.length + 1 - min cursor.toNat path.data.length

/-- The cursor measure decreases at every recursive call of `_build_event`. -/
theorem bmeasure_lt (path : String) (cursor : Int) (h : ¬cursor = -1) :
    bmeasure path (strFind path '/' (cursor + 1)) < bmeasure path cursor := by
  have hs := strFind_spec path '/' (cursor + 1)
  unfold bmeasure
  unfold pyStart at hs
  split_ifs at hs ⊢ <;> omega

/-- `_put_hier` core: place a node under a hierarchical name
`h1/h2/.../hn` in a grammar dict, expanding the name into nested dicts.
Recursion peels the first segment with `find('/')` and slicing, like the
source. Descending into an existing entry that is a `ResourceSpec` (not a
dict) raises `TypeError` in Python (item assignment or string indexing on a
namedtuple); that is the `none` result. The structural fuel bounds the
recursion depth; every step strictly shortens the name, so the wrapper's
fuel `length + 1` never runs out (`put_hierF_fuel`). -/
def put_hierF : Nat → Grammar → String → Node → Option Grammar
  | 0, _, _, _ => none
  | fuel + 1, dct, hier_name, node =>
    let pos := strFind hier_name '/' 0
    if 0 ≤ pos then
      let segment := pySlice hier_name 0 pos
      let rest := pySliceFrom hier_name (pos + 1)
      match dictGet dct segment with
      | none => (put_hierF fuel [] rest node).map
          (fun sub => dictSet dct segment (.tbl sub))
      | some (.tbl sub) =>
          (put_hierF fuel sub rest node).map
            (fun s2 => dictSet dct segment (.tbl s2))
      | some (.spec _ _ _ _ _) => none
    else
      some (dictSet dct hier_name node)

/-- `_put_hier` with always-sufficient fuel. -/
def put_hier (dct : Grammar) (hier_name : String) (node : Node) :
    Option Grammar :=
  put_hierF (hier_name.data.length + 1) dct hier_name node

/-- The recursion of `_put_hier` strictly shortens the name, so any fuel
above the name length gives the same result: the wrapper's fuel is
sufficient. -/
theorem put_hierF_fuel (fuel fuel' : Nat) (d : Grammar) (s : String)
    (v : Node) (h : s.data.length < fuel) (h' : s.data.length < fuel') :
    put_hierF fuel d s v = put_hierF fuel' d s v := by
  induction fuel generalizing fuel' d s with
  | zero => omega
  | succ n ih =>
    cases fuel' with
    | zero => omega
    | succ m =>
      have hs := strFind_spec s '/' 0
      have hrest : (pySliceFrom s (strFind s '/' 0 + 1)).data.length <
          s.data.length ∨ ¬0 ≤ strFind s '/' 0 := by
        unfold pyStart at hs
        simp only [pySliceFrom, List.length_drop]
        unfold pyStart
        split_ifs at hs ⊢ <;> omega
      simp only [put_hierF]
      split_ifs with hpos
      · rcases hrest with hrest | hrest
        · cases hd : dictGet d (pySlice s 0 (strFind s '/' 0)) with
          | none =>
            dsimp only
            rw [ih m [] (pySliceFrom s (strFind s '/' 0 + 1)) (by omega)
              (by omega)]
          | some nd =>
            cases nd with
            | tbl sub =>
              dsimp only
              rw [ih m sub (pySliceFrom s (strFind s '/' 0 + 1)) (by omega)
                (by omega)]
            | spec t el sg ca ch => rfl
        · exact absurd hpos hrest
      · rfl

/-- `_parse_resources`: compile a raw resource dict into a grammar, threading
the accumulated result dict (the mutated `result` of the source loop). Each
entry resolves its `type_uri`/`el_type_uri`/`singleton`/`custom_actions`,
compiles its children with its own `type_uri` as the new parent prefix, and
is placed with `_put_hier`. (For a null entry, the source's recursive call
`_parse_resources({}, type_uri)` on the empty children dict is inlined to
its result, the empty dict.) -/
def parse_res (svc : String) : (rd : RawDict) → Option String → Grammar →
    Option Grammar
  | .nil, _, acc => some acc
  | .cons name (.res (.mk osg otu oca och)) rest, parent, acc =>
    let s := RawEntry.res (.mk osg otu oca och)
    let type_uri := rawTypeUri svc parent name s
    match parse_res svc och (some type_uri) [] with
    | none => none
    | some kids =>
      match put_hier acc name (.spec type_uri (rawEl svc parent name s)
          (rawSingleton s) (rawCustomActions s) kids) with
      | none => none
      | some acc2 => parse_res svc rest parent acc2
  | .cons name .null rest, parent, acc =>
    let type_uri := rawTypeUri svc parent name .null
    match put_hier acc name (.spec type_uri (rawEl svc parent name .null)
        (rawSingleton .null) (rawCustomActions .null) []) with
    | none => none
    | some acc2 => parse_res svc rest parent acc2
termination_by structural rd => rd

/-- `self._parse_resources(conf['resources'])`: top-level entry point with an
empty result accumulator and no parent type URI. -/
def parse_resources (svc : String) (rd : RawDict) (parent : Option String) :
    Option Grammar :=
  parse_res svc rd parent []

/-- The request view consumed by the resolver: method, paths, client
address/agent, identity environ entries (`None` when the header is absent),
and the parsed JSON request body abstracted to its list of keys (`none` when
`request.json` raises `ValueError`; `some []` when the payload is falsy). -/
structure Request where
  method : String
  path : String
  path_qs : String
  client_addr : String
  user_agent : String
  envProjectId : Option String
  envDomainId : Option String
  envUserId : Option String
  envUserName : Option String
  envAuthToken : Option String
  envIdentityStatus : Option String
  jsonKeys : Option (List String)
deriving DecidableEq, Repr

/-- A parsed JSON response body: `invalid` when `response.json` raises
`ValueError` (body is not JSON), otherwise the string-valued fields the
middleware reads (`id`, `name`, `displayName`). An empty field map is a
falsy payload. -/
inductive JsonBody where
  | invalid
  | obj : List (String × String) → JsonBody
deriving DecidableEq, Repr

/-- The response view: integer status and JSON body. -/
structure Response where
  status_int : Int
  json : JsonBody
deriving DecidableEq, Repr

/-- The initiator resource built by `_create_event` (a `ClientResource` with
a host and a `KeystoneCredential`). -/
structure Initiator where
  typeURI : String
  id : String
  name : String
  host_address : String
  host_agent : String
  cred_token : String
  cred_identity_status : String
  project_id : String
deriving DecidableEq, Repr

/-- A CADF target resource (type URI, id, optional name and address). -/
structure Target where
  id : Option String
  typeURI : Option String
  name : Option String
  address : Option String
deriving DecidableEq, Repr

/-- The audit event assembled per request, restricted to the input-derived
fields of the spec's data model (pycadf additionally generates a fresh uuid
`id` and an `eventTime`, which are not part of the spec's event model). -/
structure Event where
  eventType : String
  outcome : String
  action : String
  initiator : Initiator
  reason : Option (String × String)
  target : Target
  requestPath : String
deriving DecidableEq, Repr

/-- The middleware object state relevant to event creation: the scalar
configuration fields and the compiled grammar (all immutable after
startup). -/
structure Middleware where
  service_type : String
  service_name : String
  prefixTemplate : String
  resource_specs : Grammar

/-- The shared lookup tail of `_get_custom_action`, applied to the resolved
`rest_action` token: exact-match table lookup first (returned as-is); then
the wildcard entry `'*'` (substituted into when non-empty, an empty wildcard
falls through); then the default `update/<token>` when the table is empty,
else a debug log and `None`. -/
def gcaLookup (res_spec : Node) (rest_action : String) (lg : Lg) :
    Except PyErr (Option String) × Lg :=
  match customActionsA res_spec with
  | .error e => (.error e, lg)
  | .ok ca =>
    match dictGet ca rest_action with
    | some a => (.ok (some a), lg)
    | none =>
      match dictGet ca "*" with
      | some a =>
        if pyTruthyS a then (.ok (some (strReplace a "*" rest_action)), lg)
        else if ca.isEmpty then (.ok (some ("update/" ++ rest_action)), lg)
        else (.ok none, lg ++ ["action filtered out"])
      | none =>
        if ca.isEmpty then (.ok (some ("update/" ++ rest_action)), lg)
        else (.ok none, lg ++ ["action filtered out"])

/-- `_get_custom_action`: resolve the raw action token (for the sentinel
suffix `"action"`, the first key of the request body; an unparseable body
logs a warning and suppresses, a falsy body suppresses silently), then do
the custom-actions table lookup. An attribute access on a plain dict node
raises `AttributeError`. -/
def get_custom_action (res_spec : Node) (action_suffix : String)
    (request : Request) (lg : Lg) : Except PyErr (Option String) × Lg :=
  if action_suffix = "action" then
    match request.jsonKeys with
    | none => (.ok none, lg ++ ["unexpected empty action payload"])
    | some [] => (.ok none, lg)
    | some (k :: _) => gcaLookup res_spec k lg
  else gcaLookup res_spec action_suffix lg

/-- `_get_action`: deduce the CADF action from the HTTP method, the bound
instance id and the optional action suffix. -/
def get_action (res_spec : Node) (res_id : Option String) (request : Request)
    (action_suffix : Option String) (lg : Lg) :
    Except PyErr (Option String) × Lg :=
  if request.method = "POST" then
    match action_suffix with
    | none => (.ok (some "create"), lg)
    | some sfx => get_custom_action res_spec sfx request lg
  else if request.method = "GET" then
    match action_suffix with
    | none => (.ok (some (if pyTruthyO res_id then "read" else "list")), lg)
    | some sfx => get_custom_action res_spec sfx request lg
  else if request.method = "PUT" ∨ request.method = "PATCH" then
    (.ok (some "update"), lg)
  else if request.method = "DELETE" then (.ok (some "delete"), lg)
  else if request.method = "HEAD" then (.ok (some "read"), lg)
  else (.ok none, lg)

/-- `_build_target_service_resource(self, res_spec, req)` — but called as
`self._build_target_service_resource(request, res_spec)`, so the parameter
`res_spec` is bound to the request object. Its body evaluates
`'service/' + res_spec.type_uri`, an attribute access that does not exist on
the request, so the call raises `AttributeError` unconditionally. -/
def build_target_service_resource (res_spec : Request) (req : Node) :
    Except PyErr Target :=
  .error .attributeError

/-- The target computation of `_create_event`: when the (truthy) id is
bound, a resource typed with the collection type URI if the action is
`list` or the node is a singleton, else the element type URI (attribute
accesses evaluated in the source's short-circuit order); when no id is
bound, the swapped-argument `_build_target_service_resource` call. -/
def targetOf (res_spec : Node) (res_id : Option String) (request : Request)
    (action : String) : Except PyErr Target :=
  if pyTruthyO res_id then
    (if action = "list" then (typeUriA res_spec).map some
     else match singletonA res_spec with
       | .error e => .error e
       | .ok true => (typeUriA res_spec).map some
       | .ok false => elTypeUriA res_spec).map
      (fun rtype => ⟨res_id, rtype, none, none⟩)
  else build_target_service_resource request res_spec

/-- `_create_event`: derive the action (suppressing falsy actions), build
the initiator from the request environ, derive outcome and reason from the
response, derive the target, and assemble the event. -/
def create_event_inner (mw : Middleware) (res_spec : Node)
    (res_id : Option String) (request : Request) (response : Option Response)
    (action_suffix : Option String) (lg : Lg) :
    Except PyErr (Option Event) × Lg :=
  match get_action res_spec res_id request action_suffix lg with
  | (.error e, lg1) => (.error e, lg1)
  | (.ok act, lg1) =>
    if ¬pyTruthyO act then (.ok none, lg1)
    else
      let action := act.getD ""
      let project_or_domain_id :=
        pyOrS request.envProjectId (request.envDomainId.getD "unknown")
      let initiator : Initiator :=
        ⟨"service/security/account/user",
          request.envUserId.getD "unknown",
          request.envUserName.getD "unknown",
          request.client_addr, request.user_agent,
          request.envAuthToken.getD "",
          request.envIdentityStatus.getD "unknown",
          project_or_domain_id⟩
      let action_result :=
        match response with
        | some r => if 200 ≤ r.status_int ∧ r.status_int < 400
            then "success" else "failure"
        | none => "unknown"
      let event_reason : Option (String × String) :=
        match response with
        | some r => some ("HTTP", toString r.status_int)
        | none => none
      match targetOf res_spec res_id request action with
      | .error e => (.error e, lg1)
      | .ok target =>
        (.ok (some ⟨"activity", action_result, action, initiator,
          event_reason, target, request.path_qs⟩), lg1)

/-- `payload.get('name')`, falling back to `payload.get('displayName')`. -/
def payloadName (payload : List (String × String)) : Option String :=
  match dictGet payload "name" with
  | some n => some n
  | none => dictGet payload "displayName"

/-- `_build_event`: recursive descent over the path. Cursor `-1` means the
end of the path was reached: the event is created, and for a `POST` with a
truthy JSON response body the target is overwritten from the body (note
`response.json` raises `ValueError` on a non-JSON body, and the attribute
accesses are evaluated left to right before the assignment on `event`).
Otherwise the next `/`-separated token is peeled off and dispatched on the
node kind: a dict consumes the token as a resource name (unknown names log a
warning and yield no event); a `ResourceSpec` with a bound id or singleton
flag consumes it as a truthy child (keeping the inherited id) or, at path
end only, as an action suffix; a `ResourceSpec` without an id binds the
token as the instance id. Any other continuation logs a warning and yields
no event. -/
def build_eventF (mw : Middleware) : Nat → Node → Option String →
    Option String → Request → Option Response → String → Int → Lg →
    Except PyErr (Option Event) × Lg
  | 0, _, _, _, _, _, _, _, lg => (.ok none, lg)
  | fuel + 1, res_node, res_id, res_parent_id, request, response, path,
      cursor, lg =>
  if cursor = -1 then
    match create_event_inner mw res_node (pyOrO res_id res_parent_id) request
        response none lg with
    | (.error e, lg1) => (.error e, lg1)
    | (.ok evO, lg1) =>
      if request.method = "POST" then
        match response with
        | none => (.ok evO, lg1)
        | some r =>
          match r.json with
          | .invalid => (.error .valueError, lg1)
          | .obj payload =>
            if payload.isEmpty then (.ok evO, lg1)
            else
              match typeUriA res_node with
              | .error e => (.error e, lg1)
              | .ok tu =>
                match evO with
                | none => (.error .attributeError, lg1)
                | some ev =>
                  (.ok (some { ev with target :=
                    ⟨dictGet payload "id", some tu, payloadName payload,
                      none⟩ }), lg1)
      else (.ok evO, lg1)
  else
    let next_pos := strFind path '/' (cursor + 1)
    let token := if next_pos ≠ -1 then pySlice path (cursor + 1) next_pos
      else pySliceFrom path (cursor + 1)
    match res_node with
    | .tbl entries =>
      match dictGet entries token with
      | none =>
        (.ok none, lg ++ ["Incomplete resource path after segment"])
      | some child =>
        build_eventF mw fuel child none none request response path next_pos lg
    | .spec t el sg ca ch =>
      if pyTruthyO res_id ∨ sg then
        match dictGet ch token with
        | some child =>
          if nodeTruthy child then
            build_eventF mw fuel child none (pyOrO res_id res_parent_id)
              request response path next_pos lg
          else if next_pos = -1 then
            create_event_inner mw (.spec t el sg ca ch)
              (pyOrO res_id res_parent_id) request response (some token) lg
          else
            (.ok none,
              lg ++ ["Unexpected continuation of resource path after segment"])
        | none =>
          if next_pos = -1 then
            create_event_inner mw (.spec t el sg ca ch)
              (pyOrO res_id res_parent_id) request response (some token) lg
          else
            (.ok none,
              lg ++ ["Unexpected continuation of resource path after segment"])
      else
        build_eventF mw fuel (.spec t el sg ca ch) (some token) res_parent_id
          request response path next_pos lg

/-- `_build_event` with always-sufficient fuel (`build_eventF_fuel`): every
recursive call strictly decreases `bmeasure path cursor`, which is at most
`path.data.length + 2`. -/
def build_event (mw : Middleware) (res_node : Node)
    (res_id res_parent_id : Option String) (request : Request)
    (response : Option Response) (path : String) (cursor : Int) (lg : Lg) :
    Except PyErr (Option Event) × Lg :=
  build_eventF mw (path.data.length + 2) res_node res_id res_parent_id
    request response path cursor lg

/-- Fuel above the cursor measure is irrelevant: the wrapper's fuel is
sufficient. -/
theorem build_eventF_fuel (mw : Middleware) (fuel fuel' : Nat) (n : Node)
    (rid pid : Option String) (req : Request) (resp : Option Response)
    (path : String) (cursor : Int) (lg : Lg)
    (h : bmeasure path cursor < fuel) (h' : bmeasure path cursor < fuel') :
    build_eventF mw fuel n rid pid req resp path cursor lg =
      build_eventF mw fuel' n rid pid req resp path cursor lg := by
  induction fuel generalizing fuel' n rid pid cursor lg with
  | zero => omega
  | succ f ih =>
    cases fuel' with
    | zero => omega
    | succ g =>
      by_cases hc : cursor = -1
      · simp only [build_eventF, if_pos hc]
      · have hlt := bmeasure_lt path cursor hc
        simp only [build_eventF, if_neg hc]
        have hm : bmeasure path (strFind path '/' (cursor + 1)) < f ∧
            bmeasure path (strFind path '/' (cursor + 1)) < g := by
          constructor <;> omega
        cases n with
        | tbl entries =>
          dsimp only
          cases dictGet entries (if strFind path '/' (cursor + 1) ≠ -1 then
              pySlice path (cursor + 1) (strFind path '/' (cursor + 1))
            else pySliceFrom path (cursor + 1)) with
          | none => rfl
          | some child => exact ih _ _ _ _ _ _ hm.1 hm.2
        | spec t el sg ca ch =>
          dsimp only
          by_cases hid : pyTruthyO rid = true ∨ sg = true
          · rw [if_pos hid, if_pos hid]
            cases dictGet ch (if strFind path '/' (cursor + 1) ≠ -1 then
                pySlice path (cursor + 1) (strFind path '/' (cursor + 1))
              else pySliceFrom path (cursor + 1)) with
            | none => rfl
            | some child =>
              dsimp only
              by_cases ht : nodeTruthy child = true
              · rw [if_pos ht, if_pos ht]
                exact ih _ _ _ _ _ _ hm.1 hm.2
              · rw [if_neg ht, if_neg ht]
          · rw [if_neg hid, if_neg hid]
            exact ih _ _ _ _ _ _ hm.1 hm.2

/-- `_strip_url_prefix`: format the prefix template with the project (or
domain) id from the environ and strip it from the request path, returning
`None` on mismatch. -/
def strip_url_pfx (mw : Middleware) (request : Request) : Option String :=
  let project_or_domain_id :=
    pyOrS request.envProjectId (request.envDomainId.getD "unknown")
  let pfx := strReplace mw.prefixTemplate "{project_id}" project_or_domain_id
  if strStartsWith request.path pfx then some (request.path.drop pfx.length)
  else none

/-- `create_event`: strip the endpoint prefix (when the prefix does not
match, `_strip_url_prefix` returns `None` and the subsequent
`path.endswith('/')` raises `AttributeError`), drop one trailing slash, and
walk the compiled grammar from the root dict. -/
def create_event (mw : Middleware) (request : Request)
    (response : Option Response) (lg : Lg) :
    Except PyErr (Option Event) × Lg :=
  match strip_url_pfx mw request with
  | none => (.error .attributeError, lg)
  | some p =>
    let path := if strEndsWith p "/" then p.dropRight 1 else p
    build_event mw (.tbl mw.resource_specs) none none request response path 0 lg

/-! ## Claim theorems -/

/-- The resolved raw action token of `_get_custom_action`: for the sentinel
suffix `"action"` the first key of the parsed request body, otherwise the
suffix itself. -/
def resolvesToken (req : Request) (sfx tok : String) : Prop :=
  (sfx = "action" → ∃ rest, req.jsonKeys = some (tok :: rest)) ∧
  (sfx ≠ "action" → tok = sfx)

theorem get_custom_action_reduces (n : Node) (req : Request) (lg : Lg)
    {sfx tok : String} (htok : resolvesToken req sfx tok) :
    get_custom_action n sfx req lg = gcaLookup n tok lg := by
  by_cases hs : sfx = "action"
  · obtain ⟨rest, hrest⟩ := htok.1 hs
    simp [get_custom_action, hs, hrest]
  · rw [htok.2 hs]
    simp [get_custom_action, hs]

theorem dictGet_ne_nil {α : Type} {ca : List (String × α)} {k : String}
    {v : α} (h : dictGet ca k = some v) : ca ≠ [] := by
  intro hn
  subst hn
  simp [dictGet] at h

/-- C1: For every request and every resolved resource node, the derived
action is the pure function of the HTTP method, id-boundness and
action-suffix given in the spec's table: POST without suffix is `create`;
GET without suffix is `read` with a (truthy) bound id, else `list`; POST or
GET with a suffix defer to the custom-action lookup; PUT and PATCH always
give `update`; DELETE gives `delete`; HEAD gives `read`; any other method
gives no action, and `_create_event` then emits no event. -/
theorem get_action_derivation (n : Node) (rid : Option String) (req : Request)
    (lg : Lg) :
    (req.method = "POST" → get_action n rid req none lg = (.ok (some "create"), lg)) ∧
    (req.method = "GET" → get_action n rid req none lg =
      (.ok (some (if pyTruthyO rid then "read" else "list")), lg)) ∧
    (∀ sfx, req.method = "POST" ∨ req.method = "GET" →
      get_action n rid req (some sfx) lg = get_custom_action n sfx req lg) ∧
    (req.method = "PUT" ∨ req.method = "PATCH" →
      ∀ sfx, get_action n rid req sfx lg = (.ok (some "update"), lg)) ∧
    (req.method = "DELETE" → ∀ sfx, get_action n rid req sfx lg = (.ok (some "delete"), lg)) ∧
    (req.method = "HEAD" → ∀ sfx, get_action n rid req sfx lg = (.ok (some "read"), lg)) ∧
    (req.method ∉ (["POST", "GET", "PUT", "PATCH", "DELETE", "HEAD"] : List String) →
      ∀ sfx, get_action n rid req sfx lg = (.ok none, lg) ∧
        ∀ mw resp, (create_event_inner mw n rid req resp sfx lg).1 = .ok none) := by
  refine ⟨?_, ?_, ?_, ?_, ?_, ?_, ?_⟩
  · intro h; simp [get_action, h]
  · intro h; simp [get_action, h]
  · rintro sfx (h | h) <;> simp [get_action, h]
  · rintro (h | h) sfx <;> simp [get_action, h]
  · intro h sfx; simp [get_action, h]
  · intro h sfx; simp [get_action, h]
  · intro h sfx
    simp only [List.mem_cons, List.mem_singleton, not_or] at h
    obtain ⟨h1, h2, h3, h4, h5, h6⟩ := h
    have hga : get_action n rid req sfx lg = (.ok none, lg) := by
      simp [get_action, h1, h2, h3, h4, h5, h6]
    refine ⟨hga, ?_⟩
    intro mw resp
    simp [create_event_inner, hga, pyTruthyO]

/-- Closed witness for `get_action_derivation`. -/
theorem get_action_derivation_witness :
    get_action (.tbl []) none
      ⟨"PUT", "/p", "/p", "c", "a", none, none, none, none, none, none, some []⟩
      none [] = (.ok (some "update"), []) := by
  exact (get_action_derivation (.tbl []) none
    ⟨"PUT", "/p", "/p", "c", "a", none, none, none, none, none, none, some []⟩
    []).2.2.2.1 (Or.inl rfl) none

/-- C2: Custom-action lookup order on a resolved `ResourceSpec`, for a raw
token that is either the non-sentinel suffix itself or the first body key:
an exact-match table entry is returned as-is, an empty-string entry then
suppressing the event in `_create_event`; otherwise a non-empty wildcard
entry `*` is returned with every literal `*` replaced by the token, while an
empty wildcard entry suppresses; an empty (hence also absent) table yields
the default `update/<token>`; and a non-empty table with neither the exact
key nor a usable wildcard suppresses. -/
theorem get_custom_action_lookup (t : String) (el : Option String) (sg : Bool)
    (ca : List (String × String)) (ch : List (String × Node)) (req : Request)
    (lg : Lg) (sfx tok : String) (htok : resolvesToken req sfx tok) :
    (∀ v, dictGet ca tok = some v →
      get_custom_action (.spec t el sg ca ch) sfx req lg = (.ok (some v), lg)) ∧
    (dictGet ca tok = some "" → req.method = "POST" ∨ req.method = "GET" →
      ∀ mw rid resp,
        (create_event_inner mw (.spec t el sg ca ch) rid req resp (some sfx) lg).1 =
          .ok none) ∧
    (∀ w, dictGet ca tok = none → dictGet ca "*" = some w → w ≠ "" →
      get_custom_action (.spec t el sg ca ch) sfx req lg =
        (.ok (some (strReplace w "*" tok)), lg)) ∧
    (dictGet ca tok = none → dictGet ca "*" = some "" →
      get_custom_action (.spec t el sg ca ch) sfx req lg =
        (.ok none, lg ++ ["action filtered out"])) ∧
    (ca = [] → get_custom_action (.spec t el sg ca ch) sfx req lg =
      (.ok (some ("update/" ++ tok)), lg)) ∧
    (ca ≠ [] → dictGet ca tok = none → dictGet ca "*" = none →
      get_custom_action (.spec t el sg ca ch) sfx req lg =
        (.ok none, lg ++ ["action filtered out"])) := by
  have hred := get_custom_action_reduces (.spec t el sg ca ch) req lg htok
  refine ⟨?_, ?_, ?_, ?_, ?_, ?_⟩
  · intro v hv
    rw [hred]
    simp [gcaLookup, customActionsA, hv]
  · intro hv hm mw rid resp
    have hga : get_action (.spec t el sg ca ch) rid req (some sfx) lg =
        (.ok (some ""), lg) := by
      rcases hm with h | h <;>
        simp [get_action, h, hred, gcaLookup, customActionsA, hv]
    simp [create_event_inner, hga, pyTruthyO, pyTruthyS]
  · intro w h1 h2 hw
    rw [hred]
    simp [gcaLookup, customActionsA, h1, h2, pyTruthyS, hw]
  · intro h1 h2
    have hne : ca.isEmpty = false := by
      rcases ca with _ | _
      · simp [dictGet] at h2
      · rfl
    rw [hred]
    simp [gcaLookup, customActionsA, h1, h2, pyTruthyS, hne]
  · intro h
    subst h
    rw [hred]
    simp [gcaLookup, customActionsA, dictGet]
  · intro hne h1 h2
    have hne2 : ca.isEmpty = false := by
      rcases ca with _ | _
      · simp at hne
      · rfl
    rw [hred]
    simp [gcaLookup, customActionsA, h1, h2, hne2]

/-- Fixture: the compiled grammar `{servers: {}}` under service type
`compute` (as compiled by `parse_resources`, see
`serversGrammar_is_compiled`). -/
def serversGrammar : Grammar :=
  [("servers", .spec "compute/servers" (some "compute/servers/server")
    false [] [])]

/-- The fixture grammar is the compiler's output on `{servers: {}}`. -/
theorem serversGrammar_is_compiled :
    parse_resources "compute" (.cons "servers" .null .nil) none =
      some serversGrammar := rfl

/-- Fixture: a middleware configured with service type `compute`, service
name `nova`, prefix `/v2/{project_id}` and the `servers` grammar. -/
def mwFix : Middleware := ⟨"compute", "nova", "/v2/{project_id}", serversGrammar⟩

/-- Fixture: a request with the standard identity headers and project `p1`. -/
def reqFix (method path : String) : Request :=
  ⟨method, path, path, "127.0.0.1", "agent", some "p1", none, some "u1",
    some "alice", some "tok", some "Confirmed", some []⟩

/-- Fixture: the initiator that `_create_event` builds from `reqFix`. -/
def initFix : Initiator :=
  ⟨"service/security/account/user", "u1", "alice", "127.0.0.1", "agent",
    "tok", "Confirmed", "p1"⟩

/-- C3: The claim says `create_event` never raises and that a prefix
mismatch resolves to no event. The code contradicts it: `_strip_url_prefix`
returns `None` on mismatch (as its docstring documents) and `create_event`
then calls `path.endswith('/')` on `None`, raising `AttributeError`. The
other per-request mapping failures do resolve to no event: an unknown path
segment yields `.ok none`. -/
theorem create_event_prefix_mismatch_raises :
    strip_url_pfx mwFix (reqFix "GET" "/other/servers") = none ∧
    (create_event mwFix (reqFix "GET" "/other/servers") none []).1 =
      .error .attributeError ∧
    (create_event mwFix (reqFix "GET" "/v2/p1/flavors") none []).1 = .ok none :=
  ⟨rfl, rfl, rfl⟩

/-- C5: When an instance id is bound the target is typed as claimed (here: a
`read` on `servers/abc123` targets the element type URI with id `abc123`).
But when no id is bound, the claimed synthetic service target is never
built: `_build_target_service_resource(self, res_spec, req)` is called as
`self._build_target_service_resource(request, res_spec)` with swapped
arguments, so `res_spec.type_uri` is an attribute access on the request
object and raises `AttributeError` — a plain collection `GET` crashes. -/
theorem no_id_service_target_raises :
    (create_event mwFix (reqFix "GET" "/v2/p1/servers/abc123")
        (some ⟨200, .obj []⟩) []).1 =
      .ok (some ⟨"activity", "success", "read", initFix, some ("HTTP", "200"),
        ⟨some "abc123", some "compute/servers/server", none, none⟩,
        "/v2/p1/servers/abc123"⟩) ∧
    (create_event mwFix (reqFix "GET" "/v2/p1/servers")
        (some ⟨200, .obj []⟩) []).1 = .error .attributeError ∧
    build_target_service_resource (reqFix "GET" "/v2/p1/servers")
        (.spec "compute/servers" (some "compute/servers/server") false [] []) =
      .error .attributeError :=
  ⟨rfl, rfl, rfl⟩

/-- C6 counterexample: a `POST` whose successful response body is
`{"id": "x1"}` — containing neither `name` nor `displayName` — still has
its event target replaced from the response body: the target id becomes
`x1` (with the collection type URI and no name) instead of the
path-supplied positional id `id123` (with the element type URI) that the
claim's "only if" direction requires. -/
theorem post_override_without_name_cex :
    dictGet [("id", "x1")] "name" = none ∧
    dictGet [("id", "x1")] "displayName" = none ∧
    (create_event mwFix (reqFix "POST" "/v2/p1/servers/id123")
        (some ⟨201, .obj [("id", "x1")]⟩) []).1 =
      .ok (some ⟨"activity", "success", "create", initFix, some ("HTTP", "201"),
        ⟨some "x1", some "compute/servers", none, none⟩,
        "/v2/p1/servers/id123"⟩) ∧
    (some "x1" : Option String) ≠ some "id123" :=
  ⟨rfl, rfl, rfl, by decide⟩

/-- C6 (amended): For every `POST` request that terminates at the end of the
path with a successfully built event and a response carrying a truthy
(non-empty) JSON body, the event's target is always replaced — regardless
of whether the body contains a `name` or `displayName` field — by a
resource whose id is the body's `id` field and whose name is the body's
`name` field, falling back to `displayName` (absent when neither exists),
typed with the resolved node's collection type URI. -/
theorem post_response_overrides_target (mw : Middleware) (t : String)
    (el : Option String) (sg : Bool) (ca : List (String × String))
    (ch : List (String × Node)) (rid pid : Option String) (req : Request)
    (r : Response) (payload : List (String × String)) (path : String)
    (lg : Lg) (ev : Event) (lg1 : Lg)
    (hm : req.method = "POST")
    (hj : r.json = .obj payload) (hp : payload ≠ [])
    (hev : create_event_inner mw (.spec t el sg ca ch) (pyOrO rid pid) req
      (some r) none lg = (.ok (some ev), lg1)) :
    build_event mw (.spec t el sg ca ch) rid pid req (some r) path (-1) lg =
      (.ok (some { ev with target :=
        ⟨dictGet payload "id", some t, payloadName payload, none⟩ }), lg1) := by
  have hp2 : payload.isEmpty = false := by
    cases payload
    · exact absurd rfl hp
    · rfl
  show build_eventF mw (path.data.length + 1 + 1) (.spec t el sg ca ch) rid
      pid req (some r) path (-1) lg = _
  simp only [build_eventF, if_pos rfl, hev, hm, hj, hp2, typeUriA]
  simp

/-- Closed witness for `post_response_overrides_target`. -/
theorem post_response_overrides_target_witness :
    build_event mwFix
        (.spec "compute/servers" (some "compute/servers/server") false [] [])
        (some "id123") none (reqFix "POST" "/v2/p1/servers/id123")
        (some ⟨201, .obj [("id", "x1"), ("name", "foo")]⟩)
        "/servers/id123" (-1) [] =
      (.ok (some ⟨"activity", "success", "create", initFix,
        some ("HTTP", "201"),
        ⟨some "x1", some "compute/servers", some "foo", none⟩,
        "/v2/p1/servers/id123"⟩), []) := by
  have h := post_response_overrides_target mwFix "compute/servers"
    (some "compute/servers/server") false [] [] (some "id123") none
    (reqFix "POST" "/v2/p1/servers/id123") ⟨201, .obj [("id", "x1"), ("name", "foo")]⟩
    [("id", "x1"), ("name", "foo")] "/servers/id123" []
    ⟨"activity", "success", "create", initFix, some ("HTTP", "201"),
      ⟨some "id123", some "compute/servers/server", none, none⟩,
      "/v2/p1/servers/id123"⟩ [] rfl rfl (by decide) rfl
  exact h

/-- C8: For every event `_create_event` emits, the outcome is `success`
exactly when a response is present with status in `[200, 400)`, otherwise
`failure` when a response is present, and `unknown` with no response; the
reason (`HTTP` plus the status code string) is present exactly when a
response existed. -/
theorem outcome_and_reason (mw : Middleware) (n : Node) (rid : Option String)
    (req : Request) (resp : Option Response) (sfx : Option String) (lg : Lg)
    (ev : Event)
    (hev : (create_event_inner mw n rid req resp sfx lg).1 = .ok (some ev)) :
    (∀ r, resp = some r →
      ((ev.outcome = "success") ↔ (200 ≤ r.status_int ∧ r.status_int < 400)) ∧
      (ev.outcome = "success" ∨ ev.outcome = "failure") ∧
      ev.reason = some ("HTTP", toString r.status_int)) ∧
    (resp = none → ev.outcome = "unknown" ∧ ev.reason = none) := by
  unfold create_event_inner at hev
  rcases hga : get_action n rid req sfx lg with ⟨actE, lg1⟩
  rw [hga] at hev
  cases actE with
  | error e => simp at hev
  | ok act =>
    dsimp only at hev
    split at hev
    · simp at hev
    · split at hev
      · simp at hev
      · simp only [Except.ok.injEq, Option.some.injEq] at hev
        subst hev
        constructor
        · rintro r rfl
          refine ⟨?_, ?_, rfl⟩
          · by_cases hst : 200 ≤ r.status_int ∧ r.status_int < 400
            · simp [hst]
            · simp [hst]
          · by_cases hst : 200 ≤ r.status_int ∧ r.status_int < 400
            · simp [hst]
            · simp [hst]
        · rintro rfl
          exact ⟨rfl, rfl⟩

/-- The event emitted for a failed `GET` on a bound instance (status 404),
used as the concrete witness input for the outcome derivation. -/
def evW404 : Event :=
  ⟨"activity", "failure", "read", initFix, some ("HTTP", "404"),
    ⟨some "abc123", some "compute/servers/server", none, none⟩, "/p"⟩

/-- Closed witness for `outcome_and_reason` at status 404. -/
theorem outcome_and_reason_witness :
    ((evW404.outcome = "success") ↔ (200 ≤ (404 : Int) ∧ (404 : Int) < 400)) ∧
    (evW404.outcome = "success" ∨ evW404.outcome = "failure") ∧
    evW404.reason = some ("HTTP", toString (404 : Int)) := by
  have h := outcome_and_reason mwFix
    (.spec "compute/servers" (some "compute/servers/server") false [] [])
    (some "abc123") (reqFix "GET" "/p") (some ⟨404, .obj []⟩) none [] evW404 rfl
  exact h.1 ⟨404, .obj []⟩ rfl

theorem goFind_not_mem {l : List Char} {c : Char} (h : c ∉ l) :
    goFind l c = none := by
  induction l with
  | nil => rfl
  | cons x xs ih =>
    simp only [List.mem_cons, not_or] at h
    simp [goFind, Ne.symm h.1, ih h.2]

theorem goFind_append {l1 l2 : List Char} {c : Char} (h : c ∉ l1) :
    goFind (l1 ++ c :: l2) c = some l1.length := by
  induction l1 with
  | nil => simp [goFind]
  | cons x xs ih =>
    simp only [List.mem_cons, not_or] at h
    simp [goFind, Ne.symm h.1, ih h.2]

theorem string_data_append (a b : String) : (a ++ b).data = a.data ++ b.data :=
  rfl

theorem strFind_split (a r : String) (ha : '/' ∉ a.data) :
    strFind (a ++ "/" ++ r) '/' 0 = (a.data.length : Int) := by
  have hdata : (a ++ "/" ++ r).data = a.data ++ '/' :: r.data := by
    simp [string_data_append]
  unfold strFind
  rw [hdata]
  have h0 : pyStart (a.data ++ '/' :: r.data).length 0 = 0 := rfl
  rw [h0, List.drop_zero, goFind_append ha]
  simp

theorem strFind_no_slash (s : String) (h : '/' ∉ s.data) :
    strFind s '/' 0 = -1 := by
  unfold strFind
  have h0 : pyStart s.data.length 0 = 0 := rfl
  rw [h0, List.drop_zero, goFind_not_mem h]

theorem pySlice_split (a r : String) :
    pySlice (a ++ "/" ++ r) 0 (a.data.length : Int) = a := by
  have hdata : (a ++ "/" ++ r).data = a.data ++ '/' :: r.data := by
    simp [string_data_append]
  unfold pySlice
  rw [hdata]
  have h0 : pyStart (a.data ++ '/' :: r.data).length 0 = 0 := rfl
  have h1 : pyStart (a.data ++ '/' :: r.data).length (a.data.length : Int) =
      a.data.length := by
    unfold pyStart
    simp
  rw [h0, h1, List.drop_zero, List.take_left]

theorem pySliceFrom_split (a r : String) :
    pySliceFrom (a ++ "/" ++ r) ((a.data.length : Int) + 1) = r := by
  have hdata : (a ++ "/" ++ r).data = (a.data ++ ['/']) ++ r.data := by
    simp [string_data_append]
  unfold pySliceFrom
  rw [hdata]
  have h1 : pyStart ((a.data ++ ['/']) ++ r.data).length
      ((a.data.length : Int) + 1) = (a.data ++ ['/']).length := by
    unfold pyStart
    simp
    omega
  rw [h1, List.drop_left]

/-- One step of `_put_hier` on a hierarchical name with the leading segment
`a` (slash-free): look up `a`, descend into the existing or fresh nested
dict with the remainder of the name, and fail on a `ResourceSpec`
collision. -/
theorem put_hier_step (d : Grammar) (a r : String) (v : Node)
    (ha : '/' ∉ a.data) :
    put_hier d (a ++ "/" ++ r) v =
      match dictGet d a with
      | none => (put_hier [] r v).map (fun sub => dictSet d a (.tbl sub))
      | some (.tbl sub) => (put_hier sub r v).map (fun s2 => dictSet d a (.tbl s2))
      | some (.spec t el sg ca ch) => none := by
  have hlen : (a ++ "/" ++ r).data.length = a.data.length + 1 + r.data.length := by
    simp [string_data_append]
    omega
  show put_hierF ((a ++ "/" ++ r).data.length + 1) d (a ++ "/" ++ r) v = _
  rw [hlen]
  simp only [put_hierF, strFind_split a r ha]
  rw [if_pos (by positivity)]
  rw [pySlice_split a r, pySliceFrom_split a r]
  have hfuel : ∀ d2 : Grammar, put_hierF (a.data.length + 1 + r.data.length)
      d2 r v = put_hier [] r v ∨ True := fun _ => Or.inr trivial
  cases hd : dictGet d a with
  | none =>
    dsimp only
    rw [put_hierF_fuel (a.data.length + 1 + r.data.length)
      (r.data.length + 1) [] r v (by omega) (by omega)]
    rfl
  | some nd =>
    cases nd with
    | tbl sub =>
      dsimp only
      rw [put_hierF_fuel (a.data.length + 1 + r.data.length)
        (r.data.length + 1) sub r v (by omega) (by omega)]
      rfl
    | spec t el sg ca ch => rfl

/-- The flat base case of `_put_hier`: a slash-free name is assigned
directly. -/
theorem put_hier_flat (d : Grammar) (c : String) (v : Node)
    (hc : '/' ∉ c.data) :
    put_hier d c v = some (dictSet d c v) := by
  show put_hierF (c.data.length + 1) d c v = _
  simp only [put_hierF, strFind_no_slash c hc]
  rw [if_neg (by omega)]

/-- One-step equation of the compiler on a dict entry, uniform in the entry
(null entries behave as all-defaults descriptions). -/
theorem parse_res_cons (svc : String) (parent : Option String) (acc : Grammar)
    (name : String) (e : RawEntry) (rest : RawDict) :
    parse_res svc (.cons name e rest) parent acc =
      match parse_res svc (rawKids e)
          (some (rawTypeUri svc parent name e)) [] with
      | none => none
      | some kids =>
        match put_hier acc name (.spec (rawTypeUri svc parent name e)
            (rawEl svc parent name e) (rawSingleton e) (rawCustomActions e)
            kids) with
        | none => none
        | some acc2 => parse_res svc rest parent acc2 := by
  cases e with
  | null => rfl
  | res r => cases r with | mk osg otu oca och => rfl

/-- C4: Compiling a raw configuration whose entry has the hierarchical key
`a/b/c` yields exactly the grammar obtained by manually nesting
`{a: {b: {c: <compiled spec>}}}` as literal nested mappings: the compiled
`ResourceSpec` of the entry (type URI, element type URI, singleton flag,
custom actions and children all resolved from the full hierarchical name)
is placed at `acc[a][b][c]`, and the remaining entries compile on top of
that, rather than `a/b/c` appearing as a flat key. -/
theorem hier_key_compiles_nested (svc : String) (parent : Option String)
    (acc : Grammar) (rest : RawDict) (a b c : String) (e : RawEntry)
    (kids : Grammar) (ha : '/' ∉ a.data) (hb : '/' ∉ b.data)
    (hc : '/' ∉ c.data) (hfresh : dictGet acc a = none)
    (hkids : parse_res svc (rawKids e)
      (some (rawTypeUri svc parent (a ++ "/" ++ b ++ "/" ++ c) e)) [] =
        some kids) :
    parse_res svc (.cons (a ++ "/" ++ b ++ "/" ++ c) e rest) parent acc =
      parse_res svc rest parent (dictSet acc a (.tbl [(b, .tbl [(c,
        .spec (rawTypeUri svc parent (a ++ "/" ++ b ++ "/" ++ c) e)
          (rawEl svc parent (a ++ "/" ++ b ++ "/" ++ c) e)
          (rawSingleton e) (rawCustomActions e) kids)])])) := by
  have hassoc : a ++ "/" ++ b ++ "/" ++ c = a ++ "/" ++ (b ++ "/" ++ c) := by
    simp [String.append_assoc]
  rw [parse_res_cons, hkids]
  dsimp only
  rw [hassoc, put_hier_step acc a (b ++ "/" ++ c) _ ha, hfresh]
  dsimp only
  rw [put_hier_step [] b c _ hb]
  have hgb : dictGet ([] : Grammar) b = none := rfl
  rw [hgb]
  dsimp only
  rw [put_hier_flat [] c _ hc]
  rfl

/-- Closed witness for `hier_key_compiles_nested` on the configuration
`{"a/b/c": null}` under service type `svc`. -/
theorem hier_key_compiles_nested_witness :
    parse_res "svc" (.cons ("a" ++ "/" ++ "b" ++ "/" ++ "c") .null .nil)
        none [] =
      some [("a", .tbl [("b", .tbl [("c",
        .spec "svc/a/b/c" (some "svc/a/b/c/a/b/") false [] [])])])] := by
  have h := hier_key_compiles_nested "svc" none [] .nil "a" "b" "c" .null []
    (by decide) (by decide) (by decide) rfl rfl
  exact h.trans rfl

mutual

/-- The compiler invariant at a node: every `ResourceSpec` reachable in it
has `el_type_uri` present exactly when it is not a singleton. -/
def nodeInv : Node → Bool
  | .tbl es => listInv es
  | .spec _ el sg _ ch => (el.isSome == !sg) && listInv ch

/-- The compiler invariant over all entries of a grammar dict. -/
def listInv : List (String × Node) → Bool
  | [] => true
  | (_, n) :: rest => nodeInv n && listInv rest

end

theorem listInv_dictSet {es : List (String × Node)} {k : String} {v : Node}
    (he : listInv es = true) (hv : nodeInv v = true) :
    listInv (dictSet es k v) = true := by
  induction es with
  | nil => simp [dictSet, listInv, hv]
  | cons p rest ih =>
    rcases p with ⟨k2, w⟩
    simp only [listInv, Bool.and_eq_true] at he
    by_cases hk : k2 = k
    · simp [dictSet, hk, listInv, hv, he.2]
    · simp [dictSet, hk, listInv, he.1, ih he.2]

theorem listInv_dictGet {es : List (String × Node)} {k : String} {v : Node}
    (he : listInv es = true) (hv : dictGet es k = some v) :
    nodeInv v = true := by
  induction es with
  | nil => simp [dictGet] at hv
  | cons p rest ih =>
    rcases p with ⟨k2, w⟩
    simp only [listInv, Bool.and_eq_true] at he
    by_cases hk : k2 = k
    · simp only [dictGet, if_pos hk] at hv
      cases hv
      exact he.1
    · simp only [dictGet, if_neg hk] at hv
      exact ih he.2 hv

theorem put_hierF_inv {fuel : Nat} {d : Grammar} {s : String} {v : Node}
    {g : Grammar} (hd : listInv d = true) (hv : nodeInv v = true)
    (h : put_hierF fuel d s v = some g) : listInv g = true := by
  induction fuel generalizing d s g with
  | zero => simp [put_hierF] at h
  | succ n ih =>
    simp only [put_hierF] at h
    split_ifs at h with hpos
    · cases hget : dictGet d (pySlice s 0 (strFind s '/' 0)) with
      | none =>
        rw [hget] at h
        dsimp only at h
        cases hsub : put_hierF n [] (pySliceFrom s (strFind s '/' 0 + 1)) v with
        | none => rw [hsub] at h; simp at h
        | some sub =>
          rw [hsub] at h
          simp at h
          subst h
          exact listInv_dictSet hd (ih (show listInv [] = true from rfl) hsub)
      | some nd =>
        rw [hget] at h
        cases nd with
        | tbl sub =>
          dsimp only at h
          cases hsub : put_hierF n sub (pySliceFrom s (strFind s '/' 0 + 1)) v with
          | none => rw [hsub] at h; simp at h
          | some sub2 =>
            rw [hsub] at h
            simp at h
            subst h
            have hsubinv : listInv sub = true := listInv_dictGet hd hget
            exact listInv_dictSet hd (ih hsubinv hsub)
        | spec t el sg ca ch => simp at h
    · cases h
      exact listInv_dictSet hd hv

theorem put_hier_inv {d : Grammar} {s : String} {v : Node} {g : Grammar}
    (hd : listInv d = true) (hv : nodeInv v = true)
    (h : put_hier d s v = some g) : listInv g = true :=
  put_hierF_inv hd hv h

theorem rawEl_isSome (svc : String) (parent : Option String) (name : String)
    (e : RawEntry) :
    (rawEl svc parent name e).isSome = !rawSingleton e := by
  unfold rawEl
  by_cases h : rawSingleton e = true
  · simp [h]
  · simp [h]

theorem parse_res_inv (svc : String) (rd : RawDict) (parent : Option String)
    (acc : Grammar) :
    listInv acc = true → ∀ g, parse_res svc rd parent acc = some g →
      listInv g = true := by
  induction rd, parent, acc using parse_res.induct svc with
  | case1 parent acc =>
    intro hacc g h
    simp only [parse_res, Option.some.injEq] at h
    subst h
    exact hacc
  | case2 name osg otu oca och rest parent acc s tu h1 ih =>
    intro hacc g h
    have h1x : parse_res svc och (some (rawTypeUri svc parent name
        (.res (.mk osg otu oca och)))) [] = none := h1
    simp only [parse_res, h1x] at h
    exact Option.noConfusion h
  | case3 name osg otu oca och rest parent acc s tu kids h1 h2 ih =>
    intro hacc g h
    have h1x : parse_res svc och (some (rawTypeUri svc parent name
        (.res (.mk osg otu oca och)))) [] = some kids := h1
    have h2x : put_hier acc name (.spec (rawTypeUri svc parent name
        (.res (.mk osg otu oca och)))
        (rawEl svc parent name (.res (.mk osg otu oca och)))
        (rawSingleton (.res (.mk osg otu oca och)))
        (rawCustomActions (.res (.mk osg otu oca och))) kids) = none := h2
    simp only [parse_res, h1x, h2x] at h
    exact Option.noConfusion h
  | case4 name osg otu oca och rest parent acc s tu kids h1 acc2 h2 ih ihr =>
    intro hacc g h
    have h1x : parse_res svc och (some (rawTypeUri svc parent name
        (.res (.mk osg otu oca och)))) [] = some kids := h1
    have h2x : put_hier acc name (.spec (rawTypeUri svc parent name
        (.res (.mk osg otu oca och)))
        (rawEl svc parent name (.res (.mk osg otu oca och)))
        (rawSingleton (.res (.mk osg otu oca och)))
        (rawCustomActions (.res (.mk osg otu oca och))) kids) = some acc2 := h2
    simp only [parse_res, h1x, h2x] at h
    have hkids : listInv kids = true := ih rfl kids h1x
    have hleaf : nodeInv (.spec (rawTypeUri svc parent name
        (.res (.mk osg otu oca och)))
        (rawEl svc parent name (.res (.mk osg otu oca och)))
        (rawSingleton (.res (.mk osg otu oca och)))
        (rawCustomActions (.res (.mk osg otu oca och))) kids) = true := by
      simp [nodeInv, rawEl_isSome, hkids]
    have hacc2 : listInv acc2 = true := put_hier_inv hacc hleaf h2x
    exact ihr hacc2 g h
  | case5 name rest parent acc tu h2 =>
    intro hacc g h
    have h2x : put_hier acc name (.spec (rawTypeUri svc parent name .null)
        (rawEl svc parent name .null) (rawSingleton .null)
        (rawCustomActions .null) []) = none := h2
    simp only [parse_res, h2x] at h
    exact Option.noConfusion h
  | case6 name rest parent acc tu acc2 h2 ihr =>
    intro hacc g h
    have h2x : put_hier acc name (.spec (rawTypeUri svc parent name .null)
        (rawEl svc parent name .null) (rawSingleton .null)
        (rawCustomActions .null) []) = some acc2 := h2
    simp only [parse_res, h2x] at h
    have hleaf : nodeInv (.spec (rawTypeUri svc parent name .null)
        (rawEl svc parent name .null) (rawSingleton .null)
        (rawCustomActions .null) []) = true := by
      simp [nodeInv, rawEl_isSome, listInv]
    have hacc2 : listInv acc2 = true := put_hier_inv hacc hleaf h2x
    exact ihr hacc2 g h

/-- C7: Compiler invariants. In every compiled grammar, every reachable
`ResourceSpec` has `el_type_uri` present iff it is not a singleton
(`listInv`); a single entry compiles to a spec whose fields are the
resolved accessors, with children compiled under its own `type_uri`; the
`type_uri` defaults to the parent's resolved type URI (or the service type
at the root) joined with `/` and the resource name when not explicitly
configured; and when the resource is not a singleton, `el_type_uri` is the
resolved `type_uri` joined with `/` and the name with exactly one trailing
character stripped. -/
theorem compiled_grammar_invariant :
    (∀ (svc : String) (rd : RawDict) (parent : Option String) (g : Grammar),
      parse_resources svc rd parent = some g → listInv g = true) ∧
    (∀ (svc : String) (parent : Option String) (name : String) (e : RawEntry)
      (kids : Grammar), '/' ∉ name.data →
      parse_res svc (rawKids e) (some (rawTypeUri svc parent name e)) [] =
        some kids →
      parse_resources svc (.cons name e .nil) parent =
        some [(name, .spec (rawTypeUri svc parent name e)
          (rawEl svc parent name e) (rawSingleton e) (rawCustomActions e)
          kids)]) ∧
    (∀ (svc : String) (parent : Option String) (name : String) (e : RawEntry),
      rawTypeUriOpt e = none →
      rawTypeUri svc parent name e = pfxOf parent svc ++ "/" ++ name) ∧
    (∀ (svc : String) (parent : Option String) (name : String) (e : RawEntry),
      rawSingleton e = false →
      rawEl svc parent name e =
        some (rawTypeUri svc parent name e ++ "/" ++ name.dropRight 1)) ∧
    (∀ (svc : String) (parent : Option String) (name : String) (e : RawEntry),
      rawSingleton e = true → rawEl svc parent name e = none) ∧
    (∀ (svc : String) (parent : Option String) (name : String) (e : RawEntry),
      (rawEl svc parent name e).isSome = !rawSingleton e) := by
  refine ⟨?_, ?_, ?_, ?_, ?_, rawEl_isSome⟩
  · intro svc rd parent g h
    exact parse_res_inv svc rd parent [] rfl g h
  · intro svc parent name e kids hname hkids
    unfold parse_resources
    rw [parse_res_cons, hkids]
    dsimp only
    rw [put_hier_flat [] name _ hname]
    rfl
  · intro svc parent name e h
    unfold rawTypeUri
    rw [h]
  · intro svc parent name e h
    unfold rawEl
    rw [h]
    rfl
  · intro svc parent name e h
    unfold rawEl
    rw [h]
    rfl

/-- Closed witness for `compiled_grammar_invariant` on the `servers`
grammar. -/
theorem compiled_grammar_invariant_witness :
    listInv serversGrammar = true ∧
    parse_resources "compute" (.cons "servers" .null .nil) none =
      some [("servers", .spec (rawTypeUri "compute" none "servers" .null)
        (rawEl "compute" none "servers" .null) (rawSingleton .null)
        (rawCustomActions .null) [])] := by
  constructor
  · exact compiled_grammar_invariant.1 "compute" (.cons "servers" .null .nil)
      none serversGrammar serversGrammar_is_compiled
  · exact compiled_grammar_invariant.2.1 "compute" none "servers" .null []
      (by decide) rfl

/-- C10: An explicitly empty `custom_actions` mapping compiles and behaves
exactly like an absent one: the compiled grammars are identical, and a
custom-action token on a resource with an empty table resolves to the
default `update/<token>` — the allow-list suppression is only active for a
non-empty table (`get_custom_action_lookup` covers that side). -/
theorem empty_custom_actions_like_absent :
    (∀ (svc : String) (parent : Option String) (acc : Grammar)
      (rest och : RawDict) (name : String) (osg : Option Bool)
      (otu : Option String),
      parse_res svc (.cons name (.res (.mk osg otu (some []) och)) rest)
          parent acc =
        parse_res svc (.cons name (.res (.mk osg otu none och)) rest)
          parent acc) ∧
    (∀ (t : String) (el : Option String) (sg : Bool)
      (ch : List (String × Node)) (req : Request) (lg : Lg) (sfx tok : String),
      resolvesToken req sfx tok →
      get_custom_action (.spec t el sg [] ch) sfx req lg =
        (.ok (some ("update/" ++ tok)), lg)) := by
  constructor
  · intro svc parent acc rest och name osg otu
    have htu : rawTypeUri svc parent name (.res (.mk osg otu (some []) och)) =
        rawTypeUri svc parent name (.res (.mk osg otu none och)) := rfl
    have hsg : rawSingleton (.res (.mk osg otu (some []) och)) =
        rawSingleton (.res (.mk osg otu none och)) := by
      cases osg <;> rfl
    have hel : rawEl svc parent name (.res (.mk osg otu (some []) och)) =
        rawEl svc parent name (.res (.mk osg otu none och)) := by
      unfold rawEl
      rw [hsg, htu]
    have hca : rawCustomActions (.res (.mk osg otu (some []) och)) =
        rawCustomActions (.res (.mk osg otu none och)) := rfl
    have hk : rawKids (.res (.mk osg otu (some []) och)) =
        rawKids (.res (.mk osg otu none och)) := rfl
    rw [parse_res_cons, parse_res_cons, htu, hsg, hel, hca, hk]
  · intro t el sg ch req lg sfx tok htok
    rw [get_custom_action_reduces _ _ _ htok]
    rfl

/-- Closed witness for `empty_custom_actions_like_absent`. -/
theorem empty_custom_actions_like_absent_witness :
    get_custom_action
        (.spec "compute/servers" (some "compute/servers/server") false [] [])
        "os-start" (reqFix "POST" "/v2/p1/servers/abc123/os-start") [] =
      (.ok (some "update/os-start"), []) := by
  exact empty_custom_actions_like_absent.2 "compute/servers"
    (some "compute/servers/server") false []
    (reqFix "POST" "/v2/p1/servers/abc123/os-start") [] "os-start" "os-start"
    ⟨fun h => absurd h (by decide), fun _ => rfl⟩

theorem gcaLookup_log (n : Node) (tok : String) (lg : Lg) :
    gcaLookup n tok lg =
      ((gcaLookup n tok []).1, lg ++ (gcaLookup n tok []).2) := by
  unfold gcaLookup
  cases customActionsA n with
  | error e => simp
  | ok ca =>
    dsimp only
    cases dictGet ca tok with
    | some a => simp
    | none =>
      dsimp only
      cases dictGet ca "*" with
      | some a =>
        dsimp only
        split_ifs <;> simp
      | none =>
        dsimp only
        split_ifs <;> simp

theorem get_custom_action_log (n : Node) (sfx : String) (req : Request)
    (lg : Lg) :
    get_custom_action n sfx req lg =
      ((get_custom_action n sfx req []).1,
        lg ++ (get_custom_action n sfx req []).2) := by
  simp only [get_custom_action]
  split_ifs with hs
  · cases req.jsonKeys with
    | none => simp
    | some ks =>
      cases ks with
      | nil => simp
      | cons k ks2 => exact gcaLookup_log n k lg
  · exact gcaLookup_log n sfx lg

theorem get_action_log (n : Node) (rid : Option String) (req : Request)
    (sfx : Option String) (lg : Lg) :
    get_action n rid req sfx lg =
      ((get_action n rid req sfx []).1,
        lg ++ (get_action n rid req sfx []).2) := by
  have hp : ∀ (x : Except PyErr (Option String)),
      (x, lg) = ((x, ([] : Lg)).1, lg ++ (x, ([] : Lg)).2) := by
    intro x
    simp
  simp only [get_action]
  split_ifs with h1 h2 h3 h4 h5 h6 <;>
    first
      | exact hp _
      | (cases sfx with
          | none => exact hp _
          | some s => exact get_custom_action_log n s req lg)

theorem create_event_inner_log (mw : Middleware) (n : Node)
    (rid : Option String) (req : Request) (resp : Option Response)
    (sfx : Option String) (lg : Lg) :
    create_event_inner mw n rid req resp sfx lg =
      ((create_event_inner mw n rid req resp sfx []).1,
        lg ++ (create_event_inner mw n rid req resp sfx []).2) := by
  unfold create_event_inner
  rw [get_action_log n rid req sfx lg]
  rcases h0 : get_action n rid req sfx [] with ⟨v0, ms⟩
  dsimp only
  cases v0 with
  | error e => simp
  | ok act =>
    dsimp only
    by_cases ht : pyTruthyO act = true
    · have hcond : ¬(¬pyTruthyO act = true) := by simp [ht]
      rw [if_neg hcond, if_neg hcond]
      try cases htg : targetOf n rid req (act.getD "")
      all_goals simp
    · have hcond : ¬pyTruthyO act = true := ht
      rw [if_pos hcond, if_pos hcond]

theorem build_eventF_log (mw : Middleware) (fuel : Nat) :
    ∀ (n : Node) (rid pid : Option String) (req : Request)
      (resp : Option Response) (path : String) (cursor : Int) (lg : Lg),
      build_eventF mw fuel n rid pid req resp path cursor lg =
        ((build_eventF mw fuel n rid pid req resp path cursor []).1,
          lg ++ (build_eventF mw fuel n rid pid req resp path cursor []).2) := by
  induction fuel with
  | zero =>
    intro n rid pid req resp path cursor lg
    simp [build_eventF]
  | succ f ih =>
    intro n rid pid req resp path cursor lg
    by_cases hc : cursor = -1
    · simp only [build_eventF, if_pos hc]
      rcases h0 : create_event_inner mw n (pyOrO rid pid) req resp none []
        with ⟨v0, ms⟩
      have hcei := create_event_inner_log mw n (pyOrO rid pid) req resp none lg
      rw [h0] at hcei
      dsimp only at hcei
      rw [hcei]
      cases v0 with
      | error e => simp
      | ok evO =>
        dsimp only
        by_cases hp : req.method = "POST"
        · simp only [if_pos hp]
          cases resp with
          | none => simp
          | some r =>
            dsimp only
            cases r.json with
            | invalid => simp
            | obj payload =>
              dsimp only
              by_cases hpe : payload.isEmpty = true
              · simp [hpe]
              · simp only [hpe, if_false, Bool.false_eq_true]
                cases typeUriA n with
                | error e => simp
                | ok tu =>
                  dsimp only
                  cases evO with
                  | none => simp
                  | some ev => simp
        · simp [hp]
    · simp only [build_eventF, if_neg hc]
      cases n with
      | tbl entries =>
        dsimp only
        cases dictGet entries (if strFind path '/' (cursor + 1) ≠ -1 then
            pySlice path (cursor + 1) (strFind path '/' (cursor + 1))
          else pySliceFrom path (cursor + 1)) with
        | none => simp
        | some child => exact ih child none none req resp path _ lg
      | spec t el sg ca ch =>
        dsimp only
        by_cases hid : pyTruthyO rid = true ∨ sg = true
        · rw [if_pos hid, if_pos hid]
          cases dictGet ch (if strFind path '/' (cursor + 1) ≠ -1 then
              pySlice path (cursor + 1) (strFind path '/' (cursor + 1))
            else pySliceFrom path (cursor + 1)) with
          | none =>
            dsimp only
            by_cases hnp : strFind path '/' (cursor + 1) = -1
            · rw [if_pos hnp, if_pos hnp]
              exact create_event_inner_log mw _ _ req resp _ lg
            · rw [if_neg hnp, if_neg hnp]
              simp
          | some child =>
            dsimp only
            by_cases htr : nodeTruthy child = true
            · rw [if_pos htr, if_pos htr]
              exact ih child none (pyOrO rid pid) req resp path _ lg
            · rw [if_neg htr, if_neg htr]
              by_cases hnp : strFind path '/' (cursor + 1) = -1
              · rw [if_pos hnp, if_pos hnp]
                exact create_event_inner_log mw _ _ req resp _ lg
              · rw [if_neg hnp, if_neg hnp]
                simp
        · rw [if_neg hid, if_neg hid]
          exact ih (.spec t el sg ca ch) (some (if strFind path '/'
            (cursor + 1) ≠ -1 then pySlice path (cursor + 1)
            (strFind path '/' (cursor + 1)) else pySliceFrom path
            (cursor + 1))) pid req resp path _ lg

/-- C9: `create_event` is deterministic in its inputs: with the same
middleware object (compiled grammar and configuration), request and
response, the result — event, no event, or raised error — is identical no
matter what logger state has accumulated from earlier calls, and the only
state effect of a call is appending its own messages to the log. (Event
identity is at the spec's data model; the pycadf event factory additionally
stamps a fresh uuid and timestamp, which are outside that model.) -/
theorem create_event_deterministic (mw : Middleware) (req : Request)
    (resp : Option Response) (lg lg' : Lg) :
    (create_event mw req resp lg).1 = (create_event mw req resp lg').1 ∧
    (create_event mw req resp lg).2 =
      lg ++ (create_event mw req resp []).2 := by
  unfold create_event
  cases strip_url_pfx mw req with
  | none => exact ⟨rfl, by simp⟩
  | some p =>
    dsimp only
    unfold build_event
    generalize (if strEndsWith p "/" = true then p.dropRight 1 else p) = q
    constructor
    · rw [build_eventF_log mw (q.data.length + 2) (.tbl mw.resource_specs)
        none none req resp q 0 lg]
      rw [build_eventF_log mw (q.data.length + 2) (.tbl mw.resource_specs)
        none none req resp q 0 lg']
    · rw [build_eventF_log mw (q.data.length + 2) (.tbl mw.resource_specs)
        none none req resp q 0 lg]

/-- Closed witness for `get_custom_action_lookup`: the wildcard case at a
concrete input. -/
theorem get_custom_action_lookup_witness :
    get_custom_action (.spec "compute/servers" none false [("*", "compute:*")] [])
      "action"
      ⟨"POST", "/p", "/p", "c", "a", none, none, none, none, none, none,
        some ["unlock"]⟩ [] = (.ok (some "compute:unlock"), []) := by
  exact (get_custom_action_lookup "compute/servers" none false
      [("*", "compute:*")] []
      ⟨"POST", "/p", "/p", "c", "a", none, none, none, none, none, none,
        some ["unlock"]⟩ [] "action" "unlock"
      ⟨fun _ => ⟨[], rfl⟩, fun h => absurd rfl h⟩).2.2.1 "compute:*"
    (by decide) (by decide) (by decide)

end AuditMW
